import Mathlib

/-!
Verification of the paperlib citation/reference conversion engine
(`src/app/renderer/services/reference-service.ts`) against its
natural-language specification.

Strings are embedded as `List Char` (`Str`), with JavaScript string
operations (`split`, `trim`, `replace`, `replaceAll`, `match` on the
inline-math regex) modelled faithfully, including the `$`-substitution
patterns of `String.prototype.replace` replacement strings.
-/

namespace Paperlib

/-- Strings are modelled as lists of characters. -/
abbrev Str := List Char

/-- Coerce a Lean string literal into the `Str` model. -/
def str (s : String) : Str := s.toList

/-- ASCII model of `toLowerCase` / `toLocaleLowerCase`. -/
def toLowerStr (s : Str) : Str := s.map Char.toLower

/-- JS `String.prototype.trim`: strip leading and trailing whitespace. -/
def trimStr (s : Str) : Str :=
  ((s.dropWhile Char.isWhitespace).reverse.dropWhile Char.isWhitespace).reverse

/-- JS `String.prototype.split` with a one-character separator: every
occurrence of the separator splits, empty pieces are kept, and the empty
string splits into `[""]`. -/
def splitChar (sep : Char) : Str → List Str
  | [] => [[]]
  | c :: cs =>
    match splitChar sep cs with
    | [] => [[]]
    | piece :: rest => if c = sep then [] :: piece :: rest else (c :: piece) :: rest

/-- A parsed author name (`{given, family}`). -/
structure ParsedName where
  given : Str
  family : Str
deriving DecidableEq, Repr

/-- The author-string parsing loop of `parseSingle`
(`reference-service.ts`, lines 29-46): choose `;` as delimiter if present,
else `,`; for each token, trim it, split on single spaces, and take the
last piece as `family` and the others joined by spaces as `given`. -/
def nameArrayOf (authors : Str) : List ParsedName :=
  let pieces := if authors.contains ';' then splitChar ';' authors else splitChar ',' authors
  pieces.map (fun name =>
    let name := trimStr name
    let nameParts := splitChar ' ' name
    { given := List.intercalate (str " ") (nameParts.take (nameParts.length - 1))
      family := nameParts.getLastD [] })

/-- Modelled from the spec: the `formatString` helper (imported from
`@/base/string`, not part of the given sources) with options
`removeNewline, removeSymbol, removeWhite, trimWhite`, described by the
spec as "normalizing it by lowercasing and stripping
newlines/symbols/whitespace".  Modelled as keeping only alphanumeric
characters (which removes newlines, symbols and whitespace alike). -/
def formatString (s : Str) : Str := s.filter Char.isAlphanum

/-- The stop-word test of the cite-key title loop exactly as written in
the source (`reference-service.ts`, lines 55-60): a *disjunction* of
"is not the/a/an" checks and a length check. -/
def citeKeyWordTest (word : Str) : Bool :=
  decide (toLowerStr word ≠ str "the") || decide (toLowerStr word ≠ str "a") ||
    decide (toLowerStr word ≠ str "an") || decide (word.length ≤ 3)

/-- The title fragment appended to the cite key: the source scans the
title's space-separated words in order and, at the first word passing
`citeKeyWordTest`, appends its normalized form and breaks. -/
def citeKeyTitleFragment (title : Str) : Str :=
  match (splitChar ' ' title).find? citeKeyWordTest with
  | some word => formatString (toLowerStr word)
  | none => []

/-- The derived citation key (`reference-service.ts`, lines 48-70):
lower-cased family name of the first author (if any), then the
publication time, then the title fragment. -/
def citeKeyOf (names : List ParsedName) (pubTime title : Str) : Str :=
  (match names with
   | [] => []
   | n :: _ => toLowerStr n.family) ++ pubTime ++ citeKeyTitleFragment title

/-- The bibliographic record (`PaperEntity`) fields consumed by the
reference service. -/
structure PaperEntity where
  id : Str
  authors : Str
  title : Str
  publication : Str
  pubTime : Str
  pubType : Nat
  publisher : Str
  pages : Str
  volume : Str
  number : Str
  doi : Str
deriving DecidableEq, Repr

/-- The canonical CSL-JSON-like citation produced by `parseSingle`.
`type` is an `Option` because the JS array lookup
`["article", "paper-conference", "article", "book"][pubType]` yields
`undefined` for indices outside the array. -/
structure CSL where
  id : Str
  type : Option Str
  citationKey : Str
  title : Str
  author : List ParsedName
  issuedYear : Str
  containerTitle : Str
  publisher : Str
  page : Str
  volume : Str
  issue : Str
  doi : Str
deriving DecidableEq, Repr

/-- The fixed publication-type array of `parseSingle` (line 73). -/
def pubTypeArray : List Str :=
  [str "article", str "paper-conference", str "article", str "book"]

/-- Embeds `parseSingle` (`reference-service.ts`, lines 29-89): convert one
record into the canonical citation. -/
def parseSingle (p : PaperEntity) : CSL :=
  let nameArray := nameArrayOf p.authors
  { id := p.id
    type := pubTypeArray[p.pubType]?
    citationKey := citeKeyOf nameArray p.pubTime p.title
    title := p.title
    author := nameArray
    issuedYear := p.pubTime
    containerTitle := p.publication
    publisher := p.publisher
    page := p.pages
    volume := p.volume
    issue := p.number
    doi := p.doi }

/-! ## Publication name rewriting -/

/-- The preference values consulted by `replacePublication`. -/
structure ReplacePrefs where
  enableExportReplacement : Bool
  exportReplacement : List (Str × Str)
deriving Repr

/-- JS `Map` lookup for a map built with `new Map(pairs)`: a later pair
with the same key overwrites an earlier one, so the lookup returns the
`to` value of the last matching pair. -/
def mapGet (pairs : List (Str × Str)) (key : Str) : Option Str :=
  (pairs.reverse.find? (fun p => p.1 = key)).map (fun p => p.2)

/-- Embeds `replacePublication` (`reference-service.ts`, lines 140-165).  The
source mutates `source.publication` in place and returns the same
object; the embedding returns the pair (returned record, state of the
caller's record after the call). -/
def replacePublication (prefs : ReplacePrefs) (source : PaperEntity) :
    PaperEntity × PaperEntity :=
  let updated :=
    if prefs.enableExportReplacement then
      let pubMap := prefs.exportReplacement
      match mapGet pubMap source.publication with
      | some target => { source with publication := target }
      | none => source
    else source
  (updated, updated)

/-- The value-level effect of `replacePublication`, as used inside
`toCite` where it is applied to freshly copied drafts. -/
def replacePublicationValue (prefs : ReplacePrefs) (source : PaperEntity) : PaperEntity :=
  (replacePublication prefs source).1

/-! ## JS `String.prototype.replace` / `replaceAll` -/

/-- ECMAScript `GetSubstitution` for a string search value: expand the
replacement-string patterns `$$` (a `$`), `$&` (the matched substring),
`` $` `` (the part of the subject before the match) and `$'` (the part
after the match); any other `$` is literal.  With a string search value
there are no capture groups, so `$n` stays literal. -/
def getSubstitution (matched before after : Str) : Str → Str
  | [] => []
  | ['$'] => ['$']
  | '$' :: '$' :: r => '$' :: getSubstitution matched before after r
  | '$' :: '&' :: r => matched ++ getSubstitution matched before after r
  | '$' :: '`' :: r => before ++ getSubstitution matched before after r
  | '$' :: '\'' :: r => after ++ getSubstitution matched before after r
  | '$' :: c :: r => '$' :: getSubstitution matched before after (c :: r)
  | c :: r => c :: getSubstitution matched before after r

/-- A replacement string is substitution-safe when `GetSubstitution`
leaves it unchanged (it contains none of `$$`, `$&`, `` $` ``, `$'`). -/
def substSafe : Str → Bool
  | [] => true
  | ['$'] => true
  | '$' :: '$' :: _ => false
  | '$' :: '&' :: _ => false
  | '$' :: '`' :: _ => false
  | '$' :: '\'' :: _ => false
  | '$' :: c :: r => substSafe (c :: r)
  | _ :: r => substSafe r

/-- Split a string around the first occurrence of `pat`: returns
`some (before, after)` with `s = before ++ pat ++ after`, or `none`
when `pat` does not occur. -/
def findSplit (pat : Str) : Str → Option (Str × Str)
  | [] => if pat.isPrefixOf [] then some ([], []) else none
  | c :: cs =>
    if pat.isPrefixOf (c :: cs) then some ([], (c :: cs).drop pat.length)
    else (findSplit pat cs).map (fun p => (c :: p.1, p.2))

/-- JS `s.replace(pat, repl)` with string arguments: replace the first
occurrence of `pat`, applying the `$`-substitution patterns of `repl`. -/
def jsReplaceFirst (pat repl s : Str) : Str :=
  match findSplit pat s with
  | none => s
  | some (before, after) => before ++ getSubstitution pat before after repl ++ after

/-- JS `s.replaceAll(c, repl)` for a one-character pattern:
replacements are not rescanned. -/
def replaceAllChar (pc : Char) (repl : Str) : Str → Str
  | [] => []
  | c :: cs => if c = pc then repl ++ replaceAllChar pc repl cs else c :: replaceAllChar pc repl cs

/-- Embeds `escapeLaTexString` (`reference-service.ts`, lines 363-369):
escape `&`, `%`, `#` in that order. -/
def escapeLaTexString (s : Str) : Str :=
  replaceAllChar '#' (str "\\#")
    (replaceAllChar '%' (str "\\%")
      (replaceAllChar '&' (str "\\&") s))

/-! ## BibTeX renderers -/

/-- The placeholder token: the source's template literal
`` `MATHENVDOLLAR{i}` `` contains no interpolation, so every span uses
the same literal text. -/
def mathTok : Str := str "MATHENVDOLLAR{i}"

/-- The brace-wrapped placeholder variant the restore loop also tries. -/
def mathTokBr : Str := str "{MATHENVDOLLAR}{i}"

/-- The matches of the global regex `/\$(.*?)\$/g` on a title: each
match is `'$' ++ content ++ '$'` where the lazily-matched content
contains neither `$` nor a newline (`.` does not match `\n`; a newline
aborts the candidate and scanning resumes looking for a new opening
`$`). -/
def scanSpansAux : Option Str → Str → List Str
  | _, [] => []
  | none, c :: cs => if c = '$' then scanSpansAux (some []) cs else scanSpansAux none cs
  | some acc, c :: cs =>
    if c = '$' then ('$' :: acc.reverse ++ ['$']) :: scanSpansAux none cs
    else if c = '\n' then scanSpansAux none cs
    else scanSpansAux (some (c :: acc)) cs

/-- All inline-math spans of a title, in order. -/
def mathEnvs (title : Str) : List Str := scanSpansAux none title

/-- The title rewriting of `exportBibTexBody`'s first loop: each found
span is replaced (first occurrence, in order) by the placeholder. -/
def tokenizeTitle (title : Str) : Str :=
  (mathEnvs title).foldl (fun t env => jsReplaceFirst env mathTok t) title

/-- Apply the title tokenization to every entry of `cite.data`. -/
def tokenizeData (data : List CSL) : List CSL :=
  data.map (fun c => { c with title := tokenizeTitle c.title })

/-- All collected `mathEnvStrs`, in entry order. -/
def mathEnvStrsOf (data : List CSL) : List Str :=
  (data.map (fun c => mathEnvs c.title)).flatten

/-- Embeds `exportBibTexBody` (`reference-service.ts`, lines 216-242): collect
and tokenize the math spans of every title, render through the opaque
BibTeX delegate `fmt` (modelling `cite.format("bibtex")`), escape the
whole body, then restore each span over the first occurrence of the
placeholder (also trying the brace-wrapped variant). -/
def exportBibTexBody (fmt : List CSL → Str) (data : List CSL) : Str :=
  let body := escapeLaTexString (fmt (tokenizeData data))
  (mathEnvStrsOf data).foldl
    (fun b sp => jsReplaceFirst mathTokBr sp (jsReplaceFirst mathTok sp b)) body

/-- Embeds `exportBibTexKey` via the registered `bibtex-key` output plugin
(`reference-service.ts`, lines 126-132, 201-203): join the citation
keys with `", "`. -/
def exportBibTexKey (data : List CSL) : Str :=
  List.intercalate (str ", ") (data.map (fun c => c.citationKey))

/-! ## Plain-text rendering and style loading -/

/-- Model of `path.join(a, b)`. -/
def pathJoin (a b : Str) : Str := a ++ str "/" ++ b

/-- The built-in CSL style keys. -/
def builtinStyleKeys : List Str := [str "apa", str "vancouver", str "harvard1"]

/-- Embeds `exportPlainText` (`reference-service.ts`, lines 244-274).
`fsExists`/`fsRead` model the filesystem, `templates` the
`Cite.plugins.config` template cache, and `fmt` the delegate
`cite.format("bibliography", {template})` for the fixed cite data.
Returns (output, updated template cache, emitted log messages). -/
def exportPlainText (csl stylesPath : Str) (fsExists : Str → Bool) (fsRead : Str → Str)
    (templates : List (Str × Str)) (fmt : Str → Str) :
    Str × List (Str × Str) × List Str :=
  if csl ∈ builtinStyleKeys then
    (fmt csl, templates, [])
  else
    let templatePath := pathJoin stylesPath (csl ++ str ".csl")
    if fsExists templatePath then
      let templates' :=
        if (templates.find? (fun p => p.1 = csl)).isSome then templates
        else templates ++ [(csl, fsRead templatePath)]
      (fmt csl, templates', [])
    else
      (fmt (str "apa"), templates,
        [str "CSL template file: " ++ csl ++ str ".csl not found."])

/-- A style listing entry `{key, name}`. -/
structure StyleDesc where
  key : Str
  name : Str
deriving DecidableEq, Repr

/-- The three built-in style descriptors (`reference-service.ts`,
lines 305-318). -/
def builtinCSLStyles : List StyleDesc :=
  [{ key := str "apa", name := str "American Psychological Association" },
   { key := str "vancouver", name := str "Vancouver" },
   { key := str "harvard1", name := str "Harvard1" }]

/-- Model of `path.basename(file, ".csl")` for a bare file name ending in
`.csl`: drop the extension. -/
def dropCslExt (file : Str) : Str := file.take (file.length - (str ".csl").length)

/-- Embeds `loadCSLStyles` (`reference-service.ts`, lines 303-360).  The
configured directory is modelled, as in the claim, by an optional list
of (file name, parse result) pairs, where the parse result is the
`style.info.title` value when the XML parse yields one and `none` when
accessing it throws. -/
def loadCSLStyles (dir : Option (List (Str × Option Str))) : List StyleDesc :=
  match dir with
  | none => builtinCSLStyles
  | some files =>
    let importedCSLStyles :=
      (files.filter (fun f => (str ".csl").isSuffixOf f.1)).filterMap
        (fun f => f.2.map (fun name => { key := dropCslExt f.1, name := name : StyleDesc }))
    builtinCSLStyles ++ importedCSLStyles

/-! ## Export facade -/

/-- The collaborators and preferences the export facade consults. -/
structure ExportEnv where
  prefs : ReplacePrefs
  selectedCSLStyle : Str
  importedCSLStylesPath : Str
  fsExists : Str → Bool
  fsRead : Str → Str
  templates : List (Str × Str)
  fmtBibtex : List CSL → Str
  fmtBibliography : Str → List CSL → Str

/-- Embeds `toCite` on a list of records (`reference-service.ts`,
lines 178-188 together with the registered `parseMulti` input plugin):
rewrite each record's publication, then map each through
`parseSingle`. -/
def toCite (prefs : ReplacePrefs) (drafts : List PaperEntity) : List CSL :=
  (drafts.map (replacePublicationValue prefs)).map parseSingle

/-- Embeds `export` (`reference-service.ts`, lines 282-297): copy the records
into drafts, dispatch on the format string, and return the string
written to the clipboard (`copyStr` starts empty, so an unrecognized
format writes the empty string). -/
def exportRecords (env : ExportEnv) (paperEntities : List PaperEntity) (format : Str) : Str :=
  let paperEntityDrafts := paperEntities.map (fun p => p)
  if format = str "BibTex" then
    exportBibTexBody env.fmtBibtex (toCite env.prefs paperEntityDrafts)
  else if format = str "BibTex-Key" then
    exportBibTexKey (toCite env.prefs paperEntityDrafts)
  else if format = str "PlainText" then
    (exportPlainText env.selectedCSLStyle env.importedCSLStylesPath env.fsExists env.fsRead
      env.templates (fun key => env.fmtBibliography key (toCite env.prefs paperEntityDrafts))).1
  else []

/-! ## Specification-side definitions used for comparison -/

/-- Modelled from the spec: the intended title fragment of the citation
key — the first title word that is simultaneously not `the`/`a`/`an`
(case-insensitively) and longer than 3 characters, normalized like the
source does. -/
def intendedTitleFragment (title : Str) : Str :=
  match (splitChar ' ' title).find? (fun w =>
      decide (toLowerStr w ≠ str "the") && decide (toLowerStr w ≠ str "a") &&
        decide (toLowerStr w ≠ str "an") && decide (3 < w.length)) with
  | some word => formatString (toLowerStr word)
  | none => []

/-- Modelled from the spec: the full intended citation key (first
author's lower-cased family name, then the year, then the intended
title fragment). -/
def intendedCiteKey (names : List ParsedName) (pubTime title : Str) : Str :=
  (match names with
   | [] => []
   | n :: _ => toLowerStr n.family) ++ pubTime ++ intendedTitleFragment title

/-- The author-splitting algorithm as the spec words it: a single
global delimiter choice, then per token trim, split on single spaces,
last piece as family, preceding pieces joined by single spaces as
given. -/
def specAuthorNames (s : Str) : List ParsedName :=
  let delim : Char := if s.contains ';' then ';' else ','
  (splitChar delim s).map (fun token =>
    let token := trimStr token
    let parts := splitChar ' ' token
    { given := List.intercalate (str " ") parts.dropLast
      family := parts.getLastD [] })

/-- The discovered-styles listing as the spec words it: one descriptor
per style file that has the recognized extension and whose parse yields
a `style.info.title`, keyed by the file base name. -/
def specDiscoveredStyles (files : List (Str × Option Str)) : List StyleDesc :=
  files.filterMap (fun f =>
    match f.2 with
    | some name =>
      if (str ".csl").isSuffixOf f.1 then some { key := dropCslExt f.1, name := name }
      else none
    | none => none)

/-- A blank record, for building concrete inputs. -/
def blankEntity : PaperEntity :=
  { id := [], authors := [], title := [], publication := [], pubTime := [], pubType := 0,
    publisher := [], pages := [], volume := [], number := [], doi := [] }

/-- A blank canonical citation, for building concrete inputs. -/
def blankCSL : CSL :=
  { id := [], type := none, citationKey := [], title := [], author := [], issuedYear := [],
    containerTitle := [], publisher := [], page := [], volume := [], issue := [], doi := [] }

/-! ## Concrete inputs used by the claim theorems -/

/-- Preferences enabling the NeurIPS replacement of spec scenario 8. -/
def prefsC3 : ReplacePrefs :=
  { enableExportReplacement := true
    exportReplacement :=
      [(str "NeurIPS", str "Conference on Neural Information Processing Systems (NeurIPS)")] }

/-- A record whose venue matches the replacement map. -/
def entityC3 : PaperEntity := { blankEntity with publication := str "NeurIPS" }

/-- A record with the out-of-range publication-type code 4. -/
def entityC5 : PaperEntity := { blankEntity with pubType := 4 }

/-- A concrete environment whose delegates render nothing. -/
def envEmptyDelegates : ExportEnv :=
  { prefs := { enableExportReplacement := false, exportReplacement := [] }
    selectedCSLStyle := str "apa"
    importedCSLStylesPath := []
    fsExists := fun _ => false
    fsRead := fun _ => []
    templates := []
    fmtBibtex := fun _ => []
    fmtBibliography := fun _ _ => [] }

/-- A delegate that renders the cite data by concatenating the titles
verbatim; in particular it preserves the placeholder tokens. -/
def fmtTitles : List CSL → Str := fun ds => (ds.map (fun c => c.title)).flatten

/-- An entry whose title contains the empty math span. -/
def entryC2 : CSL := { blankCSL with title := str "a$$b" }

/-- An entry with two math spans, for the C2 witness. -/
def entryC2w : CSL := { blankCSL with title := str "x $a$ y $b$ z" }

/-- The shape of a rendered body that contains `n` placeholder tokens:
a fragment per token, each preceded by the token. -/
def weaveTok : List Str → Str
  | [] => []
  | s :: rest => mathTok ++ s ++ weaveTok rest

/-- The same interleaving with the tokens replaced by the spans: span,
fragment, span, fragment, ... -/
def weaveSpans : List Str → List Str → Str
  | sp :: sps, s :: ss => sp ++ s ++ weaveSpans sps ss
  | _, _ => []

/-- A pattern with no nonempty proper border (no proper prefix that is
also a suffix); first occurrences of such a pattern cannot straddle a
boundary with an explicit copy of the pattern. -/
def BorderFree (pat : Str) : Prop :=
  ∀ k, k < pat.length → 0 < k → pat.take k ≠ pat.drop (pat.length - k)

/-! ## Claim C1 -/

/-- A record whose title starts with the stop word "The". -/
def entityC1 : PaperEntity :=
  { blankEntity with
    authors := str "Jiawei Ren"
    pubTime := str "2020"
    title := str "The Balanced Meta-Softmax for Long-Tailed Visual Recognition" }

/-- C1.  The claim (and the spec's stated intent) requires the title
fragment of the citation key to be the first word that is both not a
stop word and longer than 3 characters.  The source's stop-word test is
a disjunction of inequalities, which is a tautology, so the first title
word is always taken: on a title starting with "The" the code produces
`ren2020the` where the claimed behaviour produces `ren2020balanced`. -/
theorem claim1_citeKey_code_bug :
    (parseSingle entityC1).citationKey = str "ren2020the" ∧
    intendedCiteKey (nameArrayOf entityC1.authors) entityC1.pubTime entityC1.title =
      str "ren2020balanced" ∧
    (parseSingle entityC1).citationKey ≠
      intendedCiteKey (nameArrayOf entityC1.authors) entityC1.pubTime entityC1.title ∧
    (∀ w : Str, citeKeyWordTest w = true) := by
  refine ⟨by decide, by decide, by decide, ?_⟩
  intro w
  simp only [citeKeyWordTest, Bool.or_eq_true, decide_eq_true_eq]
  by_cases h : toLowerStr w = str "the"
  · refine Or.inl (Or.inl (Or.inr ?_))
    rw [h]
    decide
  · exact Or.inl (Or.inl (Or.inl h))

/-! ## Claim C3 -/



/-- C3 counterexample.  The claim says the caller's record is unchanged
after the call; but the source assigns `source.publication` in place,
so the caller's record's publication field has changed. -/
theorem claim3_counterexample :
    (replacePublication prefsC3 entityC3).2.publication ≠ entityC3.publication := by decide

/-- C3 amended.  `replacePublication` mutates the record in place and
returns the very same object (no copy): after the call the caller's
record equals the returned one; its publication is the mapped `to`
value when rewriting is enabled and the original publication exactly
equals some `from` key (last matching pair wins, per JS `Map`), and is
unchanged otherwise; every other field is unchanged. -/
theorem claim3_replacePublication_amended (prefs : ReplacePrefs) (source : PaperEntity) :
    (replacePublication prefs source).2 = (replacePublication prefs source).1 ∧
    (replacePublication prefs source).1.publication =
      (if prefs.enableExportReplacement then
        match mapGet prefs.exportReplacement source.publication with
        | some target => target
        | none => source.publication
       else source.publication) ∧
    { (replacePublication prefs source).1 with publication := source.publication } = source ∧
    ((mapGet prefs.exportReplacement source.publication).isSome ↔
      source.publication ∈ prefs.exportReplacement.map Prod.fst) := by
  have key : (replacePublication prefs source).1 =
      (if prefs.enableExportReplacement then
        match mapGet prefs.exportReplacement source.publication with
        | some target => { source with publication := target }
        | none => source
       else source) := by
    unfold replacePublication
    by_cases he : prefs.enableExportReplacement <;> simp [he]
  refine ⟨rfl, ?_, ?_, ?_⟩
  · rw [key]
    by_cases he : prefs.enableExportReplacement
    · cases h : mapGet prefs.exportReplacement source.publication <;> simp [he, h]
    · simp [he]
  · rw [key]
    by_cases he : prefs.enableExportReplacement
    · cases h : mapGet prefs.exportReplacement source.publication <;>
        (cases source; simp [he, h])
    · cases source
      simp [he]
  · rw [mapGet, Option.isSome_map', List.find?_isSome]
    constructor
    · rintro ⟨p, hp, hq⟩
      exact List.mem_map.mpr ⟨p, List.mem_reverse.mp hp, by simpa using hq⟩
    · intro hmem
      obtain ⟨p, hp, hq⟩ := List.mem_map.mp hmem
      exact ⟨p, List.mem_reverse.mpr hp, by simpa using hq⟩

/-! ## Claim C4 -/

/-- C4 counterexample.  The claim says the empty author string parses
to an empty sequence of names; in JS `"".split(",")` yields `[""]`, so
the parser produces one degenerate name, not zero. -/
theorem claim4_counterexample : nameArrayOf (str "") ≠ [] := by decide

/-- C4 amended.  The empty author string parses to exactly one
`ParsedName`, with empty given and empty family (and, the parser being
a total function, no error is raised). -/
theorem claim4_empty_authors_amended :
    nameArrayOf (str "") = [{ given := [], family := [] }] := by decide

/-! ## Claim C5 -/



/-- C5 counterexample.  The claim says codes outside the recognized
range map to `article` and the mapping is total; but the JS array
lookup yields `undefined` for index 4, so the type field is absent
rather than `article`. -/
theorem claim5_counterexample :
    (parseSingle entityC5).type = none ∧ (parseSingle entityC5).type ≠ some (str "article") := by
  decide

/-- C5 amended.  Whenever the type field is present it belongs to the
closed set {article, paper-conference, book}, but the mapping is not
total: the type field is absent exactly for codes outside 0..3 (and the
in-range codes map through the source's fixed array). -/
theorem claim5_pubType_amended (p : PaperEntity) :
    ((parseSingle p).type.all
      (fun t => [str "article", str "paper-conference", str "book"].contains t)) = true ∧
    ((parseSingle p).type = none ↔ 4 ≤ p.pubType) ∧
    (parseSingle p).type = pubTypeArray[p.pubType]? := by
  refine ⟨?_, ?_, rfl⟩
  · show (pubTypeArray[p.pubType]?.all _) = true
    match h : pubTypeArray[p.pubType]? with
    | none => simp
    | some t =>
      have ht : t ∈ pubTypeArray := List.getElem?_mem h
      fin_cases ht <;> decide
  · show pubTypeArray[p.pubType]? = none ↔ 4 ≤ p.pubType
    rw [List.getElem?_eq_none_iff]
    simp [pubTypeArray]

/-! ## Claim C6 -/

/-- C6.  The author parser makes a single global delimiter choice (`;`
if present anywhere, else `,`), splits, and maps each trimmed token to
(given = all but the last space-separated piece joined by spaces,
family = last piece); this coincides with the algorithm as the spec
words it, and on the spec's example string it produces the two expected
names. -/
theorem claim6_author_split :
    (∀ s : Str, nameArrayOf s = specAuthorNames s) ∧
    nameArrayOf (str "Jane Doe; John A. Smith") =
      [{ given := str "Jane", family := str "Doe" },
       { given := str "John A.", family := str "Smith" }] := by
  constructor
  · intro s
    by_cases h : ';' ∈ s <;>
      simp [nameArrayOf, specAuthorNames, h, List.dropLast_eq_take]
  · decide

/-! ## Claim C7 -/

/-- C7.  When the selected style is not a built-in key and the backing
custom style file does not exist, `exportPlainText` produces exactly
the output it produces for the built-in `apa` style on the same data,
and the missing-file condition is reported through the log (a nonempty
log list), not raised. -/
theorem claim7_missing_style_falls_back (csl stylesPath : Str) (fsExists : Str → Bool)
    (fsRead : Str → Str) (templates : List (Str × Str)) (fmt : Str → Str)
    (hcsl : csl ∉ builtinStyleKeys)
    (hmiss : fsExists (pathJoin stylesPath (csl ++ str ".csl")) = false) :
    (exportPlainText csl stylesPath fsExists fsRead templates fmt).1 =
      (exportPlainText (str "apa") stylesPath fsExists fsRead templates fmt).1 ∧
    (exportPlainText csl stylesPath fsExists fsRead templates fmt).2.2 ≠ [] := by
  unfold exportPlainText
  rw [if_neg hcsl, if_neg (by simp [hmiss])]
  constructor
  · rw [if_pos (by decide)]
  · simp

/-- C7 witness: a concrete missing custom style `ieee` on an empty
filesystem. -/
theorem claim7_witness :
    (exportPlainText (str "ieee") (str "/styles") (fun _ => false) (fun _ => []) []
        (fun key => key)).1 =
      (exportPlainText (str "apa") (str "/styles") (fun _ => false) (fun _ => []) []
        (fun key => key)).1 ∧
    (exportPlainText (str "ieee") (str "/styles") (fun _ => false) (fun _ => []) []
        (fun key => key)).2.2 ≠ [] :=
  claim7_missing_style_falls_back (str "ieee") (str "/styles") (fun _ => false) (fun _ => [])
    [] (fun key => key) (by decide) rfl

/-! ## Claim C8 -/

/-- C8.  The style listing always starts with the three built-in
descriptors (keys `apa`, `vancouver`, `harvard1` in that order),
followed by one descriptor per successfully parsed `.csl` file (key =
base name, name = parsed title); files whose parse yields no title are
omitted without aborting the scan. -/
theorem claim8_loadCSLStyles (files : List (Str × Option Str)) :
    (loadCSLStyles (some files)).take 3 = builtinCSLStyles ∧
    ((loadCSLStyles (some files)).take 3).map StyleDesc.key =
      [str "apa", str "vancouver", str "harvard1"] ∧
    (loadCSLStyles (some files)).drop 3 = specDiscoveredStyles files := by
  have hb : builtinCSLStyles.length = 3 := by decide
  refine ⟨?_, ?_, ?_⟩
  · show (builtinCSLStyles ++ _).take 3 = builtinCSLStyles
    rw [← hb, List.take_left]
  · show ((builtinCSLStyles ++ _).take 3).map _ = _
    rw [← hb, List.take_left]
    decide
  · show (builtinCSLStyles ++ _).drop 3 = _
    rw [← hb, List.drop_left]
    induction files with
    | nil => rfl
    | cons f fs ih =>
      obtain ⟨name, parsed⟩ := f
      cases parsed with
      | none =>
        by_cases h : (str ".csl") <:+ name <;>
          simpa [specDiscoveredStyles, h, List.filterMap_cons, List.filter_cons] using ih
      | some title =>
        by_cases h : (str ".csl") <:+ name <;>
          simpa [specDiscoveredStyles, h, List.filterMap_cons, List.filter_cons] using ih

/-! ## Claims C9 and C10 -/

/-- C9.  Exporting zero records: for each of the three formats, as long
as the third-party formatting delegates render the empty citation list
to the empty string, the facade completes (it is a total function) and
delivers the empty string to the clipboard sink. -/
theorem claim9_export_empty (env : ExportEnv)
    (hb : env.fmtBibtex [] = [])
    (hp : ∀ key, env.fmtBibliography key [] = []) :
    exportRecords env [] (str "BibTex") = [] ∧
    exportRecords env [] (str "BibTex-Key") = [] ∧
    exportRecords env [] (str "PlainText") = [] := by
  refine ⟨?_, ?_, ?_⟩
  · show exportRecords env [] (str "BibTex") = []
    unfold exportRecords
    rw [if_pos rfl]
    simp [toCite, exportBibTexBody, mathEnvStrsOf, tokenizeData, hb, escapeLaTexString,
      replaceAllChar]
  · show exportRecords env [] (str "BibTex-Key") = []
    unfold exportRecords
    rw [if_neg (by decide), if_pos rfl]
    simp [toCite, exportBibTexKey, List.intercalate]
  · show exportRecords env [] (str "PlainText") = []
    unfold exportRecords
    rw [if_neg (by decide), if_neg (by decide), if_pos rfl]
    unfold exportPlainText
    split
    · simp [toCite, hp]
    · split <;> simp [toCite, hp] <;> (try split) <;> simp [toCite, hp]



/-- C9 witness: the concrete empty-rendering environment. -/
theorem claim9_witness :
    exportRecords envEmptyDelegates [] (str "BibTex") = [] ∧
    exportRecords envEmptyDelegates [] (str "BibTex-Key") = [] ∧
    exportRecords envEmptyDelegates [] (str "PlainText") = [] :=
  claim9_export_empty envEmptyDelegates rfl (fun _ => rfl)

/-- C10.  For any records and any format string outside the recognized
set, the dispatch chain leaves `copyStr` at its initial empty value, so
the clipboard sink receives exactly the empty string and no renderer
output. -/
theorem claim10_unknown_format (env : ExportEnv) (records : List PaperEntity) (format : Str)
    (h : format ∉ [str "BibTex", str "BibTex-Key", str "PlainText"]) :
    exportRecords env records format = [] := by
  simp only [List.mem_cons, List.not_mem_nil, or_false, not_or] at h
  unfold exportRecords
  rw [if_neg h.1, if_neg h.2.1, if_neg h.2.2]

/-- C10 witness: the unrecognized format `CSV`. -/
theorem claim10_witness : exportRecords envEmptyDelegates [] (str "CSV") = [] :=
  claim10_unknown_format envEmptyDelegates [] (str "CSV") (by decide)

/-! ## Claim C2: counterexample -/



/-- C2 counterexample.  The title `a$$b` has exactly one inline math
span, `$$`.  Even under a delegate that preserves the placeholder
tokens verbatim, the rendered body is `a$b`: the restore step uses JS
`String.prototype.replace`, whose replacement string interprets `$$` as
a substitution pattern for a single `$`, so the span does not appear
byte-for-byte in the output. -/
theorem claim2_counterexample :
    mathEnvs entryC2.title = [str "$$"] ∧
    exportBibTexBody fmtTitles [entryC2] = str "a$b" ∧
    ¬ (str "$$") <:+: exportBibTexBody fmtTitles [entryC2] := by decide

/-! ## Claim C2: helper lemmas -/

/-- A substitution-safe replacement string is reproduced verbatim. -/
theorem getSubstitution_of_substSafe (m b a : Str) :
    ∀ r : Str, substSafe r = true → getSubstitution m b a r = r := by
  intro r
  induction r using substSafe.induct <;>
    simp_all [substSafe, getSubstitution]

/-- Soundness of `findSplit`: a successful split reassembles the
subject. -/
theorem eq_of_findSplit_eq_some (pat : Str) :
    ∀ s b a : Str, findSplit pat s = some (b, a) → s = b ++ pat ++ a := by
  intro s
  induction s with
  | nil =>
    intro b a h
    rw [findSplit] at h
    by_cases hp : pat.isPrefixOf []
    · rw [if_pos hp] at h
      have hp' : pat = [] := List.prefix_nil.mp (List.isPrefixOf_iff_prefix.mp hp)
      simp only [Option.some.injEq, Prod.mk.injEq] at h
      obtain ⟨rfl, rfl⟩ := h
      simp [hp']
    · rw [if_neg hp] at h
      exact absurd h (by simp)
  | cons c cs ih =>
    intro b a h
    rw [findSplit] at h
    by_cases hp : pat.isPrefixOf (c :: cs)
    · rw [if_pos hp] at h
      obtain ⟨t, ht⟩ := List.isPrefixOf_iff_prefix.mp hp
      simp only [Option.some.injEq, Prod.mk.injEq] at h
      obtain ⟨rfl, rfl⟩ := h
      rw [← ht, List.drop_left]
      simp
    · rw [if_neg hp] at h
      obtain ⟨⟨b', a'⟩, hfs, heq⟩ := Option.map_eq_some'.mp h
      simp only [Prod.mk.injEq] at heq
      obtain ⟨rfl, rfl⟩ := heq
      simp [ih b' a' hfs]

/-- When the pattern does not occur in the subject, `findSplit` fails. -/
theorem findSplit_eq_none (pat s : Str) (h : ¬ pat <:+: s) : findSplit pat s = none := by
  cases hf : findSplit pat s with
  | none => rfl
  | some p =>
    exact absurd ⟨p.1, p.2, (eq_of_findSplit_eq_some pat s p.1 p.2 (by rw [hf])).symm⟩ h

/-- First occurrence against an explicit copy of a border-free pattern:
when the prefix `A` is free of the pattern, the first occurrence in
`A ++ pat ++ B` is exactly the explicit copy. -/
theorem findSplit_append (pat B : Str) (hne : pat ≠ []) (hbf : BorderFree pat) :
    ∀ A : Str, ¬ pat <:+: A → findSplit pat (A ++ (pat ++ B)) = some (A, B) := by
  intro A
  induction A with
  | nil =>
    intro _
    cases pat with
    | nil => exact absurd rfl hne
    | cons p pr =>
      have hpre : (p :: pr).isPrefixOf (p :: (pr ++ B)) = true := by
        rw [← List.cons_append]
        exact List.isPrefixOf_iff_prefix.mpr (List.prefix_append _ _)
      show findSplit (p :: pr) (p :: (pr ++ B)) = some ([], B)
      rw [findSplit, if_pos hpre]
      have hdrop : (p :: (pr ++ B)).drop (p :: pr).length = B := by
        rw [← List.cons_append, List.drop_left]
      rw [hdrop]
  | cons c A' ih =>
    intro hA
    have hA' : ¬ pat <:+: A' := fun h => hA (List.infix_cons h)
    have hm : 0 < (c :: A').length := by simp
    have hnp : ¬ pat.isPrefixOf ((c :: A') ++ (pat ++ B)) = true := by
      rw [List.isPrefixOf_iff_prefix]
      intro hpre
      rw [List.prefix_iff_eq_take] at hpre
      by_cases hlen : pat.length ≤ (c :: A').length
      · refine hA (List.IsPrefix.isInfix ?_)
        rw [List.prefix_iff_eq_take]
        conv_lhs => rw [hpre]
        rw [List.take_append_eq_append_take, Nat.sub_eq_zero_of_le hlen,
          List.take_zero, List.append_nil]
      · push_neg at hlen
        have heq : pat = (c :: A') ++ pat.take (pat.length - (c :: A').length) := by
          conv_lhs => rw [hpre]
          rw [List.take_append_eq_append_take, List.take_of_length_le (Nat.le_of_lt hlen)]
          congr 1
          rw [List.take_append_eq_append_take, Nat.sub_eq_zero_of_le (Nat.sub_le _ _),
            List.take_zero, List.append_nil]
        have hborder : pat.drop (c :: A').length =
            pat.take (pat.length - (c :: A').length) := by
          conv_lhs => rw [heq]
          rw [List.drop_left]
        have hk2 : pat.length - (pat.length - (c :: A').length) = (c :: A').length := by
          omega
        exact hbf (pat.length - (c :: A').length) (by omega) (by omega)
          (by rw [hk2]; exact hborder.symm)
    have hnp' : ¬ pat.isPrefixOf (c :: (A' ++ (pat ++ B))) = true := by
      rw [← List.cons_append]
      exact hnp
    rw [show (c :: A') ++ (pat ++ B) = c :: (A' ++ (pat ++ B)) from rfl, findSplit,
      if_neg hnp', ih hA']
    rfl

/-- An occurrence of a pattern avoiding a character lies entirely on one
side of any occurrence of that character. -/
theorem infix_elim_of_not_mem {pat U V : Str} {d : Char} (hd : d ∉ pat)
    (h : pat <:+: U ++ d :: V) : pat <:+: U ∨ pat <:+: V := by
  obtain ⟨u, v, huv⟩ := h
  rw [List.append_assoc] at huv
  rcases List.append_eq_append_iff.mp huv with ⟨w, hU, hbv⟩ | ⟨w, hu, hdv⟩
  · rcases List.append_eq_append_iff.mp hbv with ⟨x, hw, hv⟩ | ⟨x, hpat, hxv⟩
    · exact Or.inl ⟨u, x, by rw [hU, hw, ← List.append_assoc]⟩
    · cases x with
      | nil =>
        rw [List.append_nil] at hpat
        exact Or.inl ⟨u, [], by simp [hU, hpat]⟩
      | cons y x' =>
        obtain ⟨rfl, -⟩ := List.cons.injEq .. ▸ hxv.symm
        exact absurd (by simp [hpat]) hd
  · cases w with
    | nil =>
      simp only [List.nil_append] at hdv
      cases pat with
      | nil => exact Or.inl List.nil_infix
      | cons p pr =>
        obtain ⟨rfl, -⟩ := List.cons.injEq .. ▸ hdv
        exact absurd (by simp) hd
    | cons w0 w' =>
      rw [List.cons_append] at hdv
      injection hdv with h1 h2
      exact Or.inr ⟨w', v, by rw [h2, List.append_assoc]⟩

/-- An occurrence of a `$`-free pattern around an inline-math span lies
entirely before or entirely after the span. -/
theorem infix_elim_span {pat X Y : Str} (mid : Str)
    (hd : '$' ∉ pat) (hnsp : ¬ pat <:+: ('$' :: mid ++ ['$']))
    (h : pat <:+: X ++ ('$' :: mid ++ ['$']) ++ Y) : pat <:+: X ∨ pat <:+: Y := by
  have h' : pat <:+: X ++ '$' :: (mid ++ '$' :: Y) := by
    have : X ++ ('$' :: mid ++ ['$']) ++ Y = X ++ '$' :: (mid ++ '$' :: Y) := by
      simp
    rwa [this] at h
  rcases infix_elim_of_not_mem hd h' with hX | hrest
  · exact Or.inl hX
  · rcases infix_elim_of_not_mem hd hrest with hmid | hY
    · obtain ⟨u, v, huv⟩ := hmid
      exact absurd ⟨'$' :: u, v ++ ['$'], by simp [← huv]⟩ hnsp
    · exact Or.inr hY

/-- The single-character `replaceAll` distributes over concatenation. -/
theorem replaceAllChar_append (pc : Char) (repl : Str) (a b : Str) :
    replaceAllChar pc repl (a ++ b) =
      replaceAllChar pc repl a ++ replaceAllChar pc repl b := by
  induction a with
  | nil => rfl
  | cons c cs ih =>
    by_cases h : c = pc <;> simp [replaceAllChar, h, ih]

/-- The LaTeX escape pass distributes over concatenation. -/
theorem escapeLaTexString_append (a b : Str) :
    escapeLaTexString (a ++ b) = escapeLaTexString a ++ escapeLaTexString b := by
  unfold escapeLaTexString
  rw [replaceAllChar_append, replaceAllChar_append, replaceAllChar_append]

/-- The placeholder token contains no `&`, `%`, `#`, so the escape pass
leaves it unchanged. -/
theorem escape_mathTok : escapeLaTexString mathTok = mathTok := by decide

/-- The escape pass maps a token-interleaved body to the
token-interleaved escaped fragments. -/
theorem escape_weaveTok (segs : List Str) :
    escapeLaTexString (weaveTok segs) = weaveTok (segs.map escapeLaTexString) := by
  induction segs with
  | nil => rfl
  | cons s ss ih =>
    simp [weaveTok, escapeLaTexString_append, escape_mathTok, ih]

/-- Every span produced by the math-span scanner is a `$`-delimited
block. -/
theorem scanSpansAux_shape :
    ∀ (t : Str) (st : Option Str) (sp : Str), sp ∈ scanSpansAux st t →
      ∃ mid, sp = '$' :: mid ++ ['$'] := by
  intro t
  induction t with
  | nil => intro st sp h; simp [scanSpansAux] at h
  | cons c cs ih =>
    intro st sp h
    match st with
    | none =>
      rw [scanSpansAux] at h
      split at h
      · exact ih _ sp h
      · exact ih _ sp h
    | some acc =>
      rw [scanSpansAux] at h
      split at h
      · rcases List.mem_cons.mp h with rfl | h'
        · exact ⟨acc.reverse, rfl⟩
        · exact ih _ sp h'
      · split at h
        · exact ih _ sp h
        · exact ih _ sp h

/-- Every collected math span is a `$`-delimited block. -/
theorem mathEnvStrsOf_shape (data : List CSL) (sp : Str) (h : sp ∈ mathEnvStrsOf data) :
    ∃ mid, sp = '$' :: mid ++ ['$'] := by
  rw [mathEnvStrsOf, List.mem_flatten] at h
  obtain ⟨l, hl, hsp⟩ := h
  obtain ⟨c, -, rfl⟩ := List.mem_map.mp hl
  exact scanSpansAux_shape c.title none sp hsp

/-- Each span is an infix of the woven restored body. -/
theorem infix_weaveSpans :
    ∀ (spans segs : List Str) (A : Str), segs.length = spans.length →
      ∀ sp ∈ spans, sp <:+: A ++ weaveSpans spans segs := by
  intro spans
  induction spans with
  | nil => intro segs A _ sp h; simp at h
  | cons x sps ih =>
    intro segs A hlen sp hsp
    cases segs with
    | nil => simp at hlen
    | cons s ss =>
      rcases List.mem_cons.mp hsp with rfl | h'
      · exact ⟨A, s ++ weaveSpans sps ss, by simp [weaveSpans]⟩
      · have := ih ss (A ++ x ++ s) (by simpa using hlen) sp h'
        simpa [weaveSpans, List.append_assoc] using this

/-- The placeholder token has no nonempty proper border (its first
character occurs nowhere else in it). -/
theorem mathTok_borderFree : BorderFree mathTok := by
  unfold BorderFree
  decide

/-- The restore loop of `exportBibTexBody`, stepping over a body that
interleaves token-free fragments with explicit placeholder tokens,
rebuilds the body with the spans in place of the tokens. -/
theorem restore_foldl :
    ∀ (spans segs : List Str) (A : Str),
      segs.length = spans.length →
      (∀ s ∈ segs, ¬ mathTok <:+: s) →
      ¬ mathTok <:+: A → ¬ mathTokBr <:+: A →
      ¬ mathTokBr <:+: weaveTok segs →
      (∀ sp ∈ spans, (∃ mid, sp = '$' :: mid ++ ['$']) ∧ substSafe sp = true ∧
        ¬ mathTok <:+: sp ∧ ¬ mathTokBr <:+: sp) →
      (spans.foldl (fun b sp => jsReplaceFirst mathTokBr sp (jsReplaceFirst mathTok sp b))
        (A ++ weaveTok segs)) = A ++ weaveSpans spans segs := by
  intro spans
  induction spans with
  | nil =>
    intro segs A hlen _ _ _ _ _
    have hnil : segs = [] := List.length_eq_zero.mp (by simpa using hlen)
    subst hnil
    simp [weaveTok, weaveSpans]
  | cons sp sps ih =>
    intro segs A hlen hsegTok hAtok hAtokB htailB hspans
    cases segs with
    | nil => simp at hlen
    | cons s ss =>
      obtain ⟨⟨mid, hmid⟩, hsafe, hspTok, hspTokB⟩ := hspans sp (List.mem_cons_self _ _)
      have hsTok : ¬ mathTok <:+: s := hsegTok s (List.mem_cons_self _ _)
      have hsTokB : ¬ mathTokBr <:+: s := fun h =>
        htailB (h.trans ⟨mathTok, weaveTok ss, by simp [weaveTok]⟩)
      have htail' : ¬ mathTokBr <:+: (s ++ weaveTok ss) := fun h =>
        htailB (h.trans ⟨mathTok, [], by simp [weaveTok]⟩)
      have hbody : A ++ weaveTok (s :: ss) = A ++ (mathTok ++ (s ++ weaveTok ss)) := by
        simp [weaveTok]
      have hstep1 : jsReplaceFirst mathTok sp (A ++ weaveTok (s :: ss)) =
          A ++ sp ++ (s ++ weaveTok ss) := by
        have hf : findSplit mathTok (A ++ (mathTok ++ (s ++ weaveTok ss))) =
            some (A, s ++ weaveTok ss) :=
          findSplit_append mathTok (s ++ weaveTok ss) (by decide) mathTok_borderFree A hAtok
        rw [hbody, jsReplaceFirst, hf]
        show A ++ getSubstitution mathTok A (s ++ weaveTok ss) sp ++ (s ++ weaveTok ss) = _
        rw [getSubstitution_of_substSafe _ _ _ sp hsafe]
      have hnoTokB : ¬ mathTokBr <:+: (A ++ sp ++ (s ++ weaveTok ss)) := by
        intro h
        rw [hmid] at h
        rcases infix_elim_span mid (by decide) (hmid ▸ hspTokB) h with hX | hY
        · exact hAtokB hX
        · exact htail' hY
      have hstep2 : jsReplaceFirst mathTokBr sp (A ++ sp ++ (s ++ weaveTok ss)) =
          A ++ sp ++ (s ++ weaveTok ss) := by
        rw [jsReplaceFirst, findSplit_eq_none _ _ hnoTokB]
      have hA'tok : ¬ mathTok <:+: (A ++ sp ++ s) := by
        intro h
        rw [hmid] at h
        rcases infix_elim_span mid (by decide) (hmid ▸ hspTok) h with hX | hY
        · exact hAtok hX
        · exact hsTok hY
      have hA'tokB : ¬ mathTokBr <:+: (A ++ sp ++ s) := by
        intro h
        rw [hmid] at h
        rcases infix_elim_span mid (by decide) (hmid ▸ hspTokB) h with hX | hY
        · exact hAtokB hX
        · exact hsTokB hY
      have htailB' : ¬ mathTokBr <:+: weaveTok ss := fun h =>
        htailB (h.trans ⟨mathTok ++ s, [], by simp [weaveTok]⟩)
      calc (List.foldl (fun b q => jsReplaceFirst mathTokBr q (jsReplaceFirst mathTok q b))
              (A ++ weaveTok (s :: ss)) (sp :: sps))
          = List.foldl (fun b q => jsReplaceFirst mathTokBr q (jsReplaceFirst mathTok q b))
              ((A ++ sp ++ s) ++ weaveTok ss) sps := by
            rw [List.foldl_cons, hstep1, hstep2]
            congr 1
            simp [List.append_assoc]
        _ = (A ++ sp ++ s) ++ weaveSpans sps ss := by
            refine ih ss (A ++ sp ++ s) (by simpa using hlen)
              (fun x hx => hsegTok x (List.mem_cons_of_mem _ hx)) hA'tok hA'tokB htailB'
              (fun x hx => hspans x (List.mem_cons_of_mem _ hx))
        _ = A ++ weaveSpans (sp :: sps) (s :: ss) := by
            simp [weaveSpans, List.append_assoc]

/-- C2 amended.  Model the third-party BibTeX delegate as an opaque
function whose rendering of the tokenized data interleaves
placeholder-free fragments with the placeholder tokens, one per
collected math span and in span order; require additionally that each
span is free of JS replacement substitution patterns (`$$`, `$&`,
`` $` ``, `$'` — in particular the empty span `$$` is excluded, which
the counterexample shows is necessary) and does not itself contain a
placeholder token.  Then the exported body is exactly the escaped
fragments with every math span restored byte-for-byte in place: every
span appears verbatim in the body, and all `&`, `%`, `#` of the
rendered fragments outside the spans are backslash-escaped. -/
theorem claim2_exportBibTexBody_math_preserved
    (fmt : List CSL → Str) (data : List CSL) (seg0 : Str) (restSegs : List Str)
    (hlen : restSegs.length = (mathEnvStrsOf data).length)
    (hfmt : fmt (tokenizeData data) = seg0 ++ weaveTok restSegs)
    (hsegTok : ∀ s ∈ seg0 :: restSegs, ¬ mathTok <:+: escapeLaTexString s)
    (hsegTokB : ¬ mathTokBr <:+: escapeLaTexString (fmt (tokenizeData data)))
    (hspans : ∀ sp ∈ mathEnvStrsOf data, substSafe sp = true ∧
      ¬ mathTok <:+: sp ∧ ¬ mathTokBr <:+: sp) :
    exportBibTexBody fmt data =
      escapeLaTexString seg0 ++
        weaveSpans (mathEnvStrsOf data) (restSegs.map escapeLaTexString) ∧
    ∀ sp ∈ mathEnvStrsOf data, sp <:+: exportBibTexBody fmt data := by
  have hbody : escapeLaTexString (fmt (tokenizeData data)) =
      escapeLaTexString seg0 ++ weaveTok (restSegs.map escapeLaTexString) := by
    rw [hfmt, escapeLaTexString_append, escape_weaveTok]
  rw [hbody] at hsegTokB
  have hmain : exportBibTexBody fmt data =
      escapeLaTexString seg0 ++
        weaveSpans (mathEnvStrsOf data) (restSegs.map escapeLaTexString) := by
    show ((mathEnvStrsOf data).foldl
      (fun b sp => jsReplaceFirst mathTokBr sp (jsReplaceFirst mathTok sp b))
      (escapeLaTexString (fmt (tokenizeData data)))) = _
    rw [hbody]
    exact restore_foldl (mathEnvStrsOf data) (restSegs.map escapeLaTexString)
      (escapeLaTexString seg0)
      (by simpa using hlen)
      (fun s hs => by
        obtain ⟨t, ht, rfl⟩ := List.mem_map.mp hs
        exact hsegTok t (List.mem_cons_of_mem _ ht))
      (hsegTok seg0 (List.mem_cons_self _ _))
      (fun h => hsegTokB
        (h.trans ⟨[], weaveTok (restSegs.map escapeLaTexString), by simp⟩))
      (fun h => hsegTokB (h.trans ⟨escapeLaTexString seg0, [], by simp⟩))
      (fun sp hsp => ⟨mathEnvStrsOf_shape data sp hsp, (hspans sp hsp).1,
        (hspans sp hsp).2.1, (hspans sp hsp).2.2⟩)
  refine ⟨hmain, fun sp hsp => ?_⟩
  rw [hmain]
  exact infix_weaveSpans (mathEnvStrsOf data) (restSegs.map escapeLaTexString)
    (escapeLaTexString seg0) (by simpa using hlen) sp hsp

/-- C2 witness: one entry with the two math spans of its title
restored byte-for-byte under a token-preserving delegate. -/
theorem claim2_witness :
    exportBibTexBody fmtTitles [entryC2w] =
      escapeLaTexString (str "x ") ++
        weaveSpans (mathEnvStrsOf [entryC2w]) ([str " y ", str " z"].map escapeLaTexString) ∧
    ∀ sp ∈ mathEnvStrsOf [entryC2w], sp <:+: exportBibTexBody fmtTitles [entryC2w] :=
  claim2_exportBibTexBody_math_preserved fmtTitles [entryC2w] (str "x ")
    [str " y ", str " z"] (by decide) (by decide) (by decide) (by decide) (by decide)

end Paperlib
